import Mathlib

/-!
Verification of the position-preserving command-execution protocol of
`vscode-neovim-filter` against its specification.

The definitions below are a shallow embedding of the TypeScript sources:

* `src/src/neovim/client.ts` — the per-cursor-loop client variant
  (`LoopClient.execute`) and its clamping helper (`clampPos`);
* `src/unnamed/part_000` — the run-once-global client variant
  (`GlobalClient.execute`);
* `src/src/commands/runExCommand.ts` — the command entry point
  (`runExCommand`), the selection-reconciliation step
  (`applyNewSelections`) and the command history (`addToHistory`).

Engine (Neovim RPC) behaviour is abstracted as an `EngineOracle`: a record
giving the outcome of every RPC call the client issues, so that the embedded
client is a pure executable function of the oracle and its inputs, and a
`Trace` records the externally observable effects (spawn, marker-creation
calls, command runs, quit, kill).
-/

/-- Interface `Position` from `src/src/neovim/client.ts` lines 9-12: zero-indexed
line/column. Coordinates are modelled as `Int` because the clamping
computation in the source can produce `-1` on empty content. -/
structure Position where
  line : Int
  col : Int
deriving DecidableEq, Repr

/-- Interface `ExecuteResult` from `src/src/neovim/client.ts` lines 14-17. -/
structure ExecuteResult where
  lines : List String
  cursorPositions : List (Option Position)
deriving DecidableEq, Repr

/-- JavaScript `content[i] || ""`: out-of-range (including negative) indexing
yields `undefined`, which `|| ""` turns into the empty string; an empty string
is also mapped to itself. -/
def getLineOr (content : List String) (i : Int) : String :=
  if 0 ≤ i then content.getD i.toNat "" else ""

/-- The clamping computation of `src/src/neovim/client.ts` lines 65-69
(identical in `src/unnamed/part_000` lines 65-69 and in both
`executeWithSelection` variants):
`clampedLine = Math.min(pos.line, content.length - 1)` and
`clampedCol = Math.min(pos.col, (content[clampedLine] || "").length)`. -/
def clampPos (content : List String) (pos : Position) : Int × Int :=
  let clampedLine := min pos.line ((content.length : Int) - 1)
  let clampedCol := min pos.col ((getLineOr content clampedLine).length : Int)
  (clampedLine, clampedCol)

/-- Length of the line the clamped coordinate refers to, as the source reads
it: `(content[i] || "").length`. -/
def lineLenAt (content : List String) (i : Int) : Int :=
  ((getLineOr content i).length : Int)

/-- C6: for non-empty content, the line coordinate is clamped to
`content.length - 1` exactly when the requested line is out of range, the
column is clamped to the clamped target line length exactly when it exceeds
it, and in-bounds coordinates pass through unchanged. -/
theorem clampPos_spec (content : List String) (pos : Position)
    (hne : content ≠ []) (hline : 0 ≤ pos.line) (hcol : 0 ≤ pos.col) :
    ((content.length : Int) ≤ pos.line →
      (clampPos content pos).1 = (content.length : Int) - 1) ∧
    (pos.line < (content.length : Int) →
      (clampPos content pos).1 = pos.line) ∧
    (lineLenAt content (clampPos content pos).1 < pos.col →
      (clampPos content pos).2 = lineLenAt content (clampPos content pos).1) ∧
    (pos.col ≤ lineLenAt content (clampPos content pos).1 →
      (clampPos content pos).2 = pos.col) := by
  refine ⟨?_, ?_, ?_, ?_⟩
  · intro h
    simp only [clampPos]
    omega
  · intro h
    simp only [clampPos]
    omega
  · intro h
    simp only [clampPos, lineLenAt] at h ⊢
    omega
  · intro h
    simp only [clampPos, lineLenAt] at h ⊢
    omega

/-- Witness for `clampPos_spec`: content `["ab"]`, requested position
line 5, column 7 — both out of range — clamps to line 0, column 2. -/
theorem clampPos_spec_witness :
    ((1 : Int) ≤ 5 → (clampPos ["ab"] ⟨5, 7⟩).1 = (1 : Int) - 1) ∧
    ((5 : Int) < 1 → (clampPos ["ab"] ⟨5, 7⟩).1 = 5) ∧
    (lineLenAt ["ab"] (clampPos ["ab"] ⟨5, 7⟩).1 < 7 →
      (clampPos ["ab"] ⟨5, 7⟩).2 = lineLenAt ["ab"] (clampPos ["ab"] ⟨5, 7⟩).1) ∧
    ((7 : Int) ≤ lineLenAt ["ab"] (clampPos ["ab"] ⟨5, 7⟩).1 →
      (clampPos ["ab"] ⟨5, 7⟩).2 = 7) :=
  clampPos_spec ["ab"] ⟨5, 7⟩ (by decide) (by decide) (by decide)

/-! ## Command history (`src/src/commands/runExCommand.ts` lines 119-152,
class `CommandHistory`) -/

/-- Constant `MAX_HISTORY_ITEMS` from the source. -/
def MAX_HISTORY_ITEMS : Nat := 50

/-- Method `CommandHistory.addToHistory`: remove the first occurrence of `command`
if present (`indexOf` + `splice`), prepend it (`unshift`), and drop the last
element (`pop`) when the length exceeds 50. -/
def addToHistory (history : List String) (command : String) : List String :=
  let removed := history.erase command
  let fronted := command :: removed
  if fronted.length > MAX_HISTORY_ITEMS then fronted.dropLast else fronted

/-- Method `CommandHistory.clearHistory`: the stored history becomes the empty
list. -/
def clearHistory : List String := []

/-- One user-visible history operation. -/
inductive HistOp where
  | add (command : String)
  | clear
deriving DecidableEq

/-- Apply one history operation to the stored history. -/
def applyHistOp (history : List String) : HistOp → List String
  | .add c => addToHistory history c
  | .clear => clearHistory

/-- Apply a sequence of history operations starting from a given history. -/
def applyHistOps (history : List String) (ops : List HistOp) : List String :=
  ops.foldl applyHistOp history

/-- The invariant the history maintains: no duplicates at all, and at most
50 entries. -/
def historyInv (history : List String) : Prop :=
  history.Nodup ∧ history.length ≤ MAX_HISTORY_ITEMS

/-- C10 counterexample: for the prior history `["x", "x"]` — which the claim
quantifies over ("every prior history list") — `addToHistory "x"` removes
only the first occurrence and re-prepends, leaving `"x"` twice; the result
contains a duplicate occurrence of the added command. -/
theorem addToHistory_duplicate_counterexample :
    addToHistory ["x", "x"] "x" = ["x", "x"] ∧
    (addToHistory ["x", "x"] "x").count "x" = 2 := by
  constructor <;> decide

theorem historyInv_addToHistory {h : List String} (c : String)
    (hinv : historyInv h) : historyInv (addToHistory h c) := by
  obtain ⟨hnd, hlen⟩ := hinv
  have hndr : (h.erase c).Nodup := hnd.erase c
  have hcne : c ∉ h.erase c := by
    intro hmem
    exact ((hnd.mem_erase_iff).mp hmem).1 rfl
  have hnd2 : (c :: h.erase c).Nodup := List.nodup_cons.mpr ⟨hcne, hndr⟩
  have hlenr : (h.erase c).length ≤ h.length := (h.erase_sublist c).length_le
  constructor
  · simp only [addToHistory]
    split
    · exact hnd2.sublist (List.dropLast_sublist _)
    · exact hnd2
  · simp only [addToHistory]
    split
    · rename_i hgt
      rw [List.length_dropLast]
      simp only [List.length_cons] at hgt ⊢
      omega
    · rename_i hle
      simp only [List.length_cons, Nat.not_lt] at hle ⊢
      omega

theorem historyInv_applyHistOps (ops : List HistOp) {h : List String}
    (hinv : historyInv h) : historyInv (applyHistOps h ops) := by
  induction ops generalizing h with
  | nil => exact hinv
  | cons op rest ih =>
    apply ih
    cases op with
    | add c => exact historyInv_addToHistory c hinv
    | clear => exact ⟨List.nodup_nil, by simp [applyHistOp, clearHistory, MAX_HISTORY_ITEMS]⟩

/-- C10 amended: restricted to histories satisfying the maintained invariant
(no duplicates, length at most 50) — which is exactly the set of histories
reachable from the empty initial history — `addToHistory c` yields a history
whose first element is `c`, that contains `c` at most once (indeed is
duplicate-free), and whose length never exceeds 50; `clearHistory` yields
the empty list; and the invariant holds after every sequence of
`addToHistory` / `clearHistory` operations from the empty history. -/
theorem addToHistory_amended_spec (h : List String) (c : String)
    (ops : List HistOp) (hinv : historyInv h) :
    (addToHistory h c).head? = some c ∧
    (addToHistory h c).count c ≤ 1 ∧
    historyInv (addToHistory h c) ∧
    clearHistory = ([] : List String) ∧
    historyInv (applyHistOps [] ops) := by
  have hinv2 := historyInv_addToHistory c hinv
  refine ⟨?_, ?_, hinv2, rfl, historyInv_applyHistOps ops ⟨List.nodup_nil, by simp⟩⟩
  · simp only [addToHistory]
    split
    · rename_i hgt
      simp only [List.length_cons] at hgt
      have hne : h.erase c ≠ [] := by
        intro hnil
        rw [hnil] at hgt
        simp [MAX_HISTORY_ITEMS] at hgt
      obtain ⟨b, l, hbl⟩ := List.exists_cons_of_ne_nil hne
      rw [hbl]
      rfl
    · rfl
  · exact List.nodup_iff_count_le_one.mp hinv2.1 c

/-- Witness for `addToHistory_amended_spec`: prior history `["a"]`, added
command `"b"`, operation sequence `[add "a", add "b", clear]`. -/
theorem addToHistory_amended_spec_witness :
    (addToHistory ["a"] "b").head? = some "b" ∧
    (addToHistory ["a"] "b").count "b" ≤ 1 ∧
    historyInv (addToHistory ["a"] "b") ∧
    clearHistory = ([] : List String) ∧
    historyInv (applyHistOps [] [HistOp.add "a", HistOp.add "b", HistOp.clear]) :=
  addToHistory_amended_spec ["a"] "b" [HistOp.add "a", HistOp.add "b", HistOp.clear]
    ⟨by decide, by decide⟩

/-! ## The Neovim clients (`src/src/neovim/client.ts` and
`src/unnamed/part_000`)

Every RPC call the client issues against the spawned engine is given an
outcome by an `EngineOracle`. An `Except String` outcome models a JavaScript
call that either returns normally or throws (the string is the thrown error
message). Call-site arguments that the claims are about are recorded in a
`Trace`. -/

/-- The three error classes of `src/src/utils/errors.ts` that
`NeovimClient.execute` can raise (`NeovimNotFoundError`,
`ExCommandError command vimError`, `NeovimConnectionError details`). -/
inductive NeovimError where
  | notFound : NeovimError
  | exCommand (command : String) (vimError : String) : NeovimError
  | connection (details : String) : NeovimError
deriving DecidableEq, Repr

/-- Errors as they exist inside the `try` body of `execute`, before the
`catch` clause classifies them: either an `ExCommandError` thrown at the
command-execution step, or any other thrown error (`raw`). -/
inductive BodyError where
  | raw (message : String) : BodyError
  | exCmd (command : String) (message : String) : BodyError
deriving DecidableEq, Repr

/-- Outcomes of every engine RPC call an `execute` invocation can issue. -/
structure EngineOracle where
  /-- Result of `findNvim`: `none` models an empty `matches` list. -/
  findPath : Option String
  /-- Outcome of `spawn(nvimPath, ...)`. -/
  spawnRes : Except String Unit
  /-- Outcome of `attach` over the piped stdio. -/
  attachRes : Except String Unit
  /-- Outcome of `await nvim.buffer`. -/
  bufferRes : Except String Unit
  /-- Outcome of `buffer.setLines(content, ...)`. -/
  setLinesRes : Except String Unit
  /-- Outcome of `nvim_create_namespace`. -/
  namespaceRes : Except String Nat
  /-- Outcome of `nvim_buf_set_extmark` for the i-th created marker: the mark id. -/
  setExtmarkRes : Nat → Except String Nat
  /-- Outcome of `nvim_buf_get_extmark_by_id` during the per-cursor loop, by mark id. -/
  getExtmarkRes : Nat → Except String (Int × Int)
  /-- Outcome of `nvim_win_set_cursor` for the i-th loop iteration. -/
  setCursorRes : Nat → Except String Unit
  /-- Outcome of `nvim.command` for the i-th command run of the invocation. -/
  runCommandRes : Nat → Except String Unit
  /-- Outcome of `buffer.getLines(...)` reading the transformed buffer back. -/
  getLinesRes : Except String (List String)
  /-- Outcome of `nvim_buf_get_extmark_by_id` during final resolution, by mark id:
  the raw result array (`[row, col]`, or `[]` for an orphaned marker). -/
  resolveRes : Nat → Except String (List Int)
  /-- Outcome of `nvim.quit()`. -/
  quitRes : Except String Unit

/-- Externally observable effects of one `execute` invocation. -/
structure Trace where
  /-- The subprocess was spawned (`proc` is non-null). -/
  spawned : Bool
  /-- The RPC session was attached (`nvim` is non-null). -/
  attached : Bool
  /-- Arguments of every `nvim_buf_set_extmark` call, in call order:
  line, column, and the `right_gravity` flag passed. -/
  extmarkCalls : List (Int × Int × Bool)
  /-- The exact command string of every `nvim.command` run that executes
  the ex command, in call order. -/
  commandRuns : List String
  /-- True when `nvim.quit()` was attempted in the `finally` block. -/
  quitAttempted : Bool
  /-- True when `proc.kill()` was called in the `finally` block. -/
  killed : Bool
deriving DecidableEq, Repr

/-- The trace before anything happened. -/
def Trace.empty : Trace :=
  { spawned := false, attached := false, extmarkCalls := [],
    commandRuns := [], quitAttempted := false, killed := false }

/-- The trace after `spawn` returned (`proc` non-null). -/
def Trace.afterSpawn : Trace :=
  { Trace.empty with spawned := true }

/-- The trace after `attach` returned (`proc` and `nvim` non-null). -/
def Trace.afterAttach : Trace :=
  { Trace.empty with spawned := true, attached := true }

/-- A fallible step inside the `try` body: a thrown error propagates as a
`BodyError.raw` (to be classified by the `catch` clause). -/
def step {α β : Type} (r : Except String α) (t : Trace)
    (k : α → Except BodyError β × Trace) : Except BodyError β × Trace :=
  match r with
  | .error m => (.error (.raw m), t)
  | .ok a => k a

/-- The marker-creation loop shared by both client variants
(`src/src/neovim/client.ts` lines 63-78, `src/unnamed/part_000` lines
63-78): for each supplied position, clamp it against `content` and call
`nvim_buf_set_extmark` with `right_gravity: false`, collecting mark ids.
`i` counts the calls already made. -/
def createMarks (o : EngineOracle) (content : List String) :
    List Position → Nat → Trace → Except String (List Nat) × Trace
  | [], _, t => (.ok [], t)
  | pos :: rest, i, t =>
    let c := clampPos content pos
    let t1 := { t with extmarkCalls := t.extmarkCalls ++ [(c.1, c.2, false)] }
    match o.setExtmarkRes i with
    | .error m => (.error m, t1)
    | .ok id =>
      match createMarks o content rest (i + 1) t1 with
      | (.ok ids, t2) => (.ok (id :: ids), t2)
      | (.error m, t2) => (.error m, t2)

/-- The per-cursor execution loop of `src/src/neovim/client.ts` lines
81-102: for each recorded mark id, re-read its current position, move the
engine cursor there, and run the raw command; a command failure becomes an
`ExCommandError` carrying the exact command string, aborting the loop. -/
def runLoop (o : EngineOracle) (command : String) :
    List Nat → Nat → Trace → Except BodyError Unit × Trace
  | [], _, t => (.ok (), t)
  | id :: rest, i, t =>
    match o.getExtmarkRes id with
    | .error m => (.error (.raw m), t)
    | .ok _pos =>
      match o.setCursorRes i with
      | .error m => (.error (.raw m), t)
      | .ok _ =>
        let t1 := { t with commandRuns := t.commandRuns ++ [command] }
        match o.runCommandRes t.commandRuns.length with
        | .error m => (.error (.exCmd command m), t1)
        | .ok _ => runLoop o command rest (i + 1) t1

/-- Final marker resolution for one mark id (`src/src/neovim/client.ts`
lines 113-130): an RPC error or a result array whose length is not 2 yields
`none`; a two-element `[row, col]` yields the position. -/
def resolveOne (o : EngineOracle) (id : Nat) : Option Position :=
  match o.resolveRes id with
  | .error _ => none
  | .ok [row, col] => some ⟨row, col⟩
  | .ok _ => none

/-- Final marker resolution over all mark ids, in creation order. -/
def resolvePositions (o : EngineOracle) (ids : List Nat) : List (Option Position) :=
  ids.map (resolveOne o)

/-- First phase of the `finally` block (`src/src/neovim/client.ts` lines
143-149): if the RPC session exists, attempt `nvim.quit()`; an error thrown
by the quit is caught and ignored. -/
def teardownQuit (o : EngineOracle) (t : Trace) : Trace :=
  if t.attached then
    match o.quitRes with
    | .ok _ => { t with quitAttempted := true }
    | .error _ => { t with quitAttempted := true }
  else t

/-- Second phase of the `finally` block (lines 150-152): if the subprocess
exists, `proc.kill()` unconditionally. -/
def teardownKill (t : Trace) : Trace :=
  if t.spawned then { t with killed := true } else t

/-- The `finally` block of both variants (`src/src/neovim/client.ts` lines
142-153): attempt the graceful quit, then kill the subprocess. -/
def teardown (o : EngineOracle) (t : Trace) : Trace :=
  teardownKill (teardownQuit o t)

/-- The `catch` clause of both variants (`src/src/neovim/client.ts` lines
133-141): an `ExCommandError` is rethrown as-is, anything else is wrapped
in a `NeovimConnectionError`. -/
def wrapBody {α : Type} : Except BodyError α → Except NeovimError α
  | .ok a => .ok a
  | .error (.exCmd c m) => .error (.exCommand c m)
  | .error (.raw m) => .error (.connection m)

namespace LoopClient

/-- The `try` body of `NeovimClient.execute` in `src/src/neovim/client.ts`
(lines 45-109) up to reading the buffer back: spawn, attach, get buffer,
set content, create the extmark namespace, create one clamped low-gravity
extmark per cursor, run the per-cursor loop, and read the resulting lines.
Returns the lines together with the mark ids still to be resolved. -/
def executeCore (o : EngineOracle) (content : List String) (command : String)
    (cursors : List Position) : Except BodyError (List String × List Nat) × Trace :=
  step o.spawnRes Trace.empty fun _ =>
  step o.attachRes Trace.afterSpawn fun _ =>
  step o.bufferRes Trace.afterAttach fun _ =>
  step o.setLinesRes Trace.afterAttach fun _ =>
  step o.namespaceRes Trace.afterAttach fun _ =>
  match createMarks o content cursors 0 Trace.afterAttach with
  | (.error m, t2) => (.error (.raw m), t2)
  | (.ok markIds, t2) =>
    match runLoop o command markIds 0 t2 with
    | (.error e, t3) => (.error e, t3)
    | (.ok _, t3) =>
      match o.getLinesRes with
      | .error m => (.error (.raw m), t3)
      | .ok lines => (.ok (lines, markIds), t3)

/-- The full `try` body of `NeovimClient.execute` (lines 45-132): after the
core, resolve every marker softly (lines 112-130) and assemble the
`ExecuteResult`. -/
def executeBody (o : EngineOracle) (content : List String) (command : String)
    (cursors : List Position) : Except BodyError ExecuteResult × Trace :=
  match executeCore o content command cursors with
  | (.error e, t) => (.error e, t)
  | (.ok (lines, markIds), t) =>
    (.ok { lines := lines, cursorPositions := resolvePositions o markIds }, t)

/-- Method `NeovimClient.execute` of `src/src/neovim/client.ts` (lines 35-154),
the per-cursor-loop variant: resolve the engine path (a failure there is a
`NeovimNotFoundError` raised before anything is spawned), then run the
`try` body, classify errors with the `catch` clause and run the `finally`
teardown on every exit path. -/
def execute (o : EngineOracle) (content : List String) (command : String)
    (cursors : List Position) : Except NeovimError ExecuteResult × Trace :=
  match o.findPath with
  | none => (.error .notFound, Trace.empty)
  | some _ =>
    match executeBody o content command cursors with
    | (res, t) => (wrapBody res, teardown o t)

end LoopClient

namespace GlobalClient

/-- The `try` body of `NeovimClient.execute` in `src/unnamed/part_000`
(lines 45-116), the run-once-global variant: identical to the loop variant
up to marker creation, then a single `nvim.command(command)` with no
per-cursor loop (lines 80-86), then buffer read-back. -/
def executeCore (o : EngineOracle) (content : List String) (command : String)
    (cursors : List Position) : Except BodyError (List String × List Nat) × Trace :=
  step o.spawnRes Trace.empty fun _ =>
  step o.attachRes Trace.afterSpawn fun _ =>
  step o.bufferRes Trace.afterAttach fun _ =>
  step o.setLinesRes Trace.afterAttach fun _ =>
  step o.namespaceRes Trace.afterAttach fun _ =>
  match createMarks o content cursors 0 Trace.afterAttach with
  | (.error m, t2) => (.error (.raw m), t2)
  | (.ok markIds, t2) =>
    match o.runCommandRes 0 with
    | .error m => (.error (.exCmd command m), { t2 with commandRuns := t2.commandRuns ++ [command] })
    | .ok _ =>
      match o.getLinesRes with
      | .error m => (.error (.raw m), { t2 with commandRuns := t2.commandRuns ++ [command] })
      | .ok lines => (.ok (lines, markIds), { t2 with commandRuns := t2.commandRuns ++ [command] })

/-- The full `try` body of the global variant, soft-resolving every marker
(lines 96-114) and assembling the result. -/
def executeBody (o : EngineOracle) (content : List String) (command : String)
    (cursors : List Position) : Except BodyError ExecuteResult × Trace :=
  match executeCore o content command cursors with
  | (.error e, t) => (.error e, t)
  | (.ok (lines, markIds), t) =>
    (.ok { lines := lines, cursorPositions := resolvePositions o markIds }, t)

/-- Method `NeovimClient.execute` of `src/unnamed/part_000` (lines 35-138), the
run-once-global variant, with the same error classification and teardown as
the loop variant. -/
def execute (o : EngineOracle) (content : List String) (command : String)
    (cursors : List Position) : Except NeovimError ExecuteResult × Trace :=
  match o.findPath with
  | none => (.error .notFound, Trace.empty)
  | some _ =>
    match executeBody o content command cursors with
    | (res, t) => (wrapBody res, teardown o t)

end GlobalClient

/-! ### Plumbing lemmas about the embedded clients -/

theorem teardownQuit_fields (o : EngineOracle) (t : Trace) :
    (teardownQuit o t).spawned = t.spawned ∧
    (teardownQuit o t).attached = t.attached ∧
    (teardownQuit o t).commandRuns = t.commandRuns ∧
    (teardownQuit o t).extmarkCalls = t.extmarkCalls ∧
    (teardownQuit o t).killed = t.killed ∧
    (teardownQuit o t).quitAttempted = (t.attached || t.quitAttempted) := by
  unfold teardownQuit
  cases hq : o.quitRes <;> split <;> simp_all

theorem teardownKill_fields (t : Trace) :
    (teardownKill t).spawned = t.spawned ∧
    (teardownKill t).attached = t.attached ∧
    (teardownKill t).commandRuns = t.commandRuns ∧
    (teardownKill t).extmarkCalls = t.extmarkCalls ∧
    (teardownKill t).killed = (t.spawned || t.killed) ∧
    (teardownKill t).quitAttempted = t.quitAttempted := by
  unfold teardownKill
  split <;> simp_all

theorem teardown_spawned (o : EngineOracle) (t : Trace) :
    (teardown o t).spawned = t.spawned := by
  unfold teardown
  rw [(teardownKill_fields _).1, (teardownQuit_fields o t).1]

theorem teardown_attached (o : EngineOracle) (t : Trace) :
    (teardown o t).attached = t.attached := by
  unfold teardown
  rw [(teardownKill_fields _).2.1, (teardownQuit_fields o t).2.1]

theorem teardown_commandRuns (o : EngineOracle) (t : Trace) :
    (teardown o t).commandRuns = t.commandRuns := by
  unfold teardown
  rw [(teardownKill_fields _).2.2.1, (teardownQuit_fields o t).2.2.1]

theorem teardown_extmarkCalls (o : EngineOracle) (t : Trace) :
    (teardown o t).extmarkCalls = t.extmarkCalls := by
  unfold teardown
  rw [(teardownKill_fields _).2.2.2.1, (teardownQuit_fields o t).2.2.2.1]

theorem teardown_killed (o : EngineOracle) (t : Trace) :
    (teardown o t).killed = (t.spawned || t.killed) := by
  unfold teardown
  rw [(teardownKill_fields _).2.2.2.2.1, (teardownQuit_fields o t).1,
    (teardownQuit_fields o t).2.2.2.2.1]

theorem teardown_quitAttempted (o : EngineOracle) (t : Trace) :
    (teardown o t).quitAttempted = (t.attached || t.quitAttempted) := by
  unfold teardown
  rw [(teardownKill_fields _).2.2.2.2.2, (teardownQuit_fields o t).2.2.2.2.2]

theorem teardown_congr {o o' : EngineOracle} (h : o'.quitRes = o.quitRes)
    (t : Trace) : teardown o' t = teardown o t := by
  unfold teardown teardownQuit
  rw [h]

theorem createMarks_congr {o o' : EngineOracle}
    (h : o'.setExtmarkRes = o.setExtmarkRes) (content : List String) :
    createMarks o' content = createMarks o content := by
  funext cs
  induction cs with
  | nil => rfl
  | cons pos rest ih =>
    funext i t
    unfold createMarks
    rw [h, ih]

theorem runLoop_congr {o o' : EngineOracle}
    (h1 : o'.getExtmarkRes = o.getExtmarkRes)
    (h2 : o'.setCursorRes = o.setCursorRes)
    (h3 : o'.runCommandRes = o.runCommandRes) (command : String) :
    runLoop o' command = runLoop o command := by
  funext ids
  induction ids with
  | nil => rfl
  | cons id rest ih =>
    funext i t
    unfold runLoop
    rw [h1, h2, h3, ih]

theorem createMarks_length {o : EngineOracle} {content : List String} :
    ∀ {cs : List Position} {i : Nat} {t : Trace} {ids : List Nat} {t2 : Trace},
      createMarks o content cs i t = (.ok ids, t2) → ids.length = cs.length := by
  intro cs
  induction cs with
  | nil =>
    intro i t ids t2 h
    simp only [createMarks] at h
    cases h
    rfl
  | cons pos rest ih =>
    intro i t ids t2 h
    simp only [createMarks] at h
    split at h
    · simp at h
    · split at h
      · rename_i heq
        cases h
        simp [ih heq]
      · simp at h

/-- The marker-creation loop only appends to `extmarkCalls`; every other
trace field is left as it was. -/
theorem createMarks_trace_shape {o : EngineOracle} {content : List String} :
    ∀ (cs : List Position) (i : Nat) (t : Trace),
      ∃ ex, (createMarks o content cs i t).2 = { t with extmarkCalls := ex } := by
  intro cs
  induction cs with
  | nil => intro i t; exact ⟨t.extmarkCalls, rfl⟩
  | cons pos rest ih =>
    intro i t
    simp only [createMarks]
    split
    · exact ⟨_, rfl⟩
    · rename_i id hm
      obtain ⟨ex, hex⟩ := ih (i + 1)
        { t with extmarkCalls := t.extmarkCalls ++ [((clampPos content pos).1, (clampPos content pos).2, false)] }
      split
      · rename_i ids t2 heq
        refine ⟨ex, ?_⟩
        have : (createMarks o content rest (i + 1)
            { t with extmarkCalls := t.extmarkCalls ++ [((clampPos content pos).1, (clampPos content pos).2, false)] }).2 = t2 := by
          rw [heq]
        rw [this] at hex
        exact hex
      · rename_i m t2 heq
        refine ⟨ex, ?_⟩
        have : (createMarks o content rest (i + 1)
            { t with extmarkCalls := t.extmarkCalls ++ [((clampPos content pos).1, (clampPos content pos).2, false)] }).2 = t2 := by
          rw [heq]
        rw [this] at hex
        exact hex

/-- The per-cursor execution loop only appends to `commandRuns`; every
other trace field is left as it was. -/
theorem runLoop_trace_shape {o : EngineOracle} {command : String} :
    ∀ (ids : List Nat) (i : Nat) (t : Trace),
      ∃ runs, (runLoop o command ids i t).2 = { t with commandRuns := runs } := by
  intro ids
  induction ids with
  | nil => intro i t; exact ⟨t.commandRuns, rfl⟩
  | cons id rest ih =>
    intro i t
    simp only [runLoop]
    split
    · exact ⟨_, rfl⟩
    · split
      · exact ⟨_, rfl⟩
      · split
        · exact ⟨_, rfl⟩
        · obtain ⟨runs, hruns⟩ := ih (i + 1) { t with commandRuns := t.commandRuns ++ [command] }
          exact ⟨runs, hruns⟩

theorem LoopClient.executeBody_trace (o : EngineOracle) (content : List String)
    (command : String) (cursors : List Position) :
    (LoopClient.executeBody o content command cursors).2 =
    (LoopClient.executeCore o content command cursors).2 := by
  unfold LoopClient.executeBody
  rcases h : LoopClient.executeCore o content command cursors with ⟨res, t⟩
  cases res with
  | error e => rfl
  | ok p => rcases p with ⟨lines, ids⟩; rfl

theorem LoopClient.executeCore_trace_shape (o : EngineOracle) (content : List String)
    (command : String) (cursors : List Position) :
    ∃ s a e c, (LoopClient.executeCore o content command cursors).2 =
      { spawned := s, attached := a, extmarkCalls := e, commandRuns := c,
        quitAttempted := false, killed := false } := by
  unfold LoopClient.executeCore step
  cases h1 : o.spawnRes
  · exact ⟨_, _, _, _, rfl⟩
  dsimp only
  cases h2 : o.attachRes
  · exact ⟨_, _, _, _, rfl⟩
  dsimp only
  cases h3 : o.bufferRes
  · exact ⟨_, _, _, _, rfl⟩
  dsimp only
  cases h4 : o.setLinesRes
  · exact ⟨_, _, _, _, rfl⟩
  dsimp only
  cases h5 : o.namespaceRes
  · exact ⟨_, _, _, _, rfl⟩
  dsimp only
  obtain ⟨ex, hex⟩ := @createMarks_trace_shape o content cursors 0 Trace.afterAttach
  rcases hcm : createMarks o content cursors 0 Trace.afterAttach with ⟨cres, t2⟩
  rw [hcm] at hex
  dsimp only at hex
  cases cres with
  | error m => exact ⟨_, _, ex, _, hex⟩
  | ok ids =>
    dsimp only
    obtain ⟨runs, hruns⟩ := @runLoop_trace_shape o command ids 0 t2
    rcases hrl : runLoop o command ids 0 t2 with ⟨rres, t3⟩
    rw [hrl] at hruns
    dsimp only at hruns
    rw [hex] at hruns
    cases rres with
    | error e => exact ⟨_, _, _, _, hruns⟩
    | ok u =>
      dsimp only
      cases h6 : o.getLinesRes
      · exact ⟨_, _, _, _, hruns⟩
      · exact ⟨_, _, _, _, hruns⟩

theorem runLoop_error_exCmd {o : EngineOracle} {command : String} :
    ∀ {ids : List Nat} {i : Nat} {t : Trace} {c m : String} {t2 : Trace},
      runLoop o command ids i t = (.error (.exCmd c m), t2) →
      c = command ∧ ∃ j, o.runCommandRes j = .error m := by
  intro ids
  induction ids with
  | nil =>
    intro i t c m t2 h
    simp [runLoop] at h
  | cons id rest ih =>
    intro i t c m t2 h
    simp only [runLoop] at h
    split at h
    · simp at h
    · split at h
      · simp at h
      · split at h
        · rename_i m2 hrc
          simp only [Prod.mk.injEq, Except.error.injEq, BodyError.exCmd.injEq] at h
          obtain ⟨⟨hc, hm⟩, _⟩ := h
          exact ⟨hc.symm, t.commandRuns.length, by rw [hrc, hm]⟩
        · exact ih h

theorem LoopClient.executeCore_error_exCmd {o : EngineOracle} {content : List String}
    {command : String} {cursors : List Position} {c m : String} {t : Trace}
    (h : LoopClient.executeCore o content command cursors = (.error (.exCmd c m), t)) :
    c = command ∧ ∃ j, o.runCommandRes j = .error m := by
  simp only [LoopClient.executeCore, step] at h
  split at h
  · simp at h
  split at h
  · simp at h
  split at h
  · simp at h
  split at h
  · simp at h
  split at h
  · simp at h
  split at h
  · simp at h
  · split at h
    · rename_i hrl
      simp only [Prod.mk.injEq, Except.error.injEq] at h
      obtain ⟨he, _⟩ := h
      rw [he] at hrl
      exact runLoop_error_exCmd hrl
    · split at h
      · simp at h
      · simp at h

theorem LoopClient.executeBody_error {o : EngineOracle} {content : List String}
    {command : String} {cursors : List Position} {e : BodyError} {t : Trace}
    (h : LoopClient.executeBody o content command cursors = (.error e, t)) :
    LoopClient.executeCore o content command cursors = (.error e, t) := by
  unfold LoopClient.executeBody at h
  split at h
  · rename_i e2 t2 heq
    simp only [Prod.mk.injEq, Except.error.injEq] at h
    obtain ⟨he, ht⟩ := h
    rw [he, ht] at heq
    exact heq
  · simp at h

theorem LoopClient.executeBody_ok {o : EngineOracle} {content : List String}
    {command : String} {cursors : List Position} {r : ExecuteResult} {t : Trace}
    (h : LoopClient.executeBody o content command cursors = (.ok r, t)) :
    ∃ ids, LoopClient.executeCore o content command cursors = (.ok (r.lines, ids), t) ∧
      r.cursorPositions = resolvePositions o ids := by
  unfold LoopClient.executeBody at h
  split at h
  · simp at h
  · rename_i lines ids t2 heq
    simp only [Prod.mk.injEq, Except.ok.injEq] at h
    obtain ⟨hr, ht⟩ := h
    subst ht
    refine ⟨ids, ?_, ?_⟩
    · rw [← hr]
      exact heq
    · rw [← hr]

theorem LoopClient.executeCore_ok_length {o : EngineOracle} {content : List String}
    {command : String} {cursors : List Position} {lines : List String}
    {ids : List Nat} {t : Trace}
    (h : LoopClient.executeCore o content command cursors = (.ok (lines, ids), t)) :
    ids.length = cursors.length := by
  simp only [LoopClient.executeCore, step] at h
  split at h
  · simp at h
  split at h
  · simp at h
  split at h
  · simp at h
  split at h
  · simp at h
  split at h
  · simp at h
  split at h
  · simp at h
  · rename_i markIds t2 hcm
    split at h
    · simp at h
    · split at h
      · simp at h
      · simp only [Prod.mk.injEq, Except.ok.injEq] at h
        obtain ⟨⟨_, hids⟩, _⟩ := h
        rw [← hids]
        exact createMarks_length hcm

theorem resolvePositions_congr {o o' : EngineOracle}
    (h : o'.resolveRes = o.resolveRes) :
    resolvePositions o' = resolvePositions o := by
  funext ids
  unfold resolvePositions resolveOne
  rw [h]

theorem LoopClient.executeCore_congr {o o' : EngineOracle}
    (h1 : o'.spawnRes = o.spawnRes) (h2 : o'.attachRes = o.attachRes)
    (h3 : o'.bufferRes = o.bufferRes) (h4 : o'.setLinesRes = o.setLinesRes)
    (h5 : o'.namespaceRes = o.namespaceRes) (h6 : o'.setExtmarkRes = o.setExtmarkRes)
    (h7 : o'.getExtmarkRes = o.getExtmarkRes) (h8 : o'.setCursorRes = o.setCursorRes)
    (h9 : o'.runCommandRes = o.runCommandRes) (h10 : o'.getLinesRes = o.getLinesRes) :
    LoopClient.executeCore o' = LoopClient.executeCore o := by
  funext content command cursors
  unfold LoopClient.executeCore
  rw [h1, h2, h3, h4, h5, h10, createMarks_congr h6 content, runLoop_congr h7 h8 h9 command]

/-- Changing only the final-resolution outcomes does not change the core
run (spawn, content load, marker creation, command loop, buffer read). -/
theorem LoopClient.executeCore_resolveRes_update (o : EngineOracle)
    (f : Nat → Except String (List Int)) (content : List String)
    (command : String) (cursors : List Position) :
    LoopClient.executeCore { o with resolveRes := f } content command cursors =
    LoopClient.executeCore o content command cursors := by
  rw [@LoopClient.executeCore_congr o { o with resolveRes := f }
    rfl rfl rfl rfl rfl rfl rfl rfl rfl rfl]

/-- Whether the graceful quit succeeds or throws, the teardown result is
the same: quit errors are swallowed. -/
theorem teardown_quit_irrel (o : EngineOracle) (q : Except String Unit) (t : Trace) :
    teardown { o with quitRes := q } t = teardown o t := by
  unfold teardown teardownQuit
  dsimp only
  cases q <;> cases hq : o.quitRes <;> rfl

/-- The outcome and trace of the whole `execute` are independent of the
quit outcome: the `finally` block swallows quit errors. -/
theorem LoopClient.execute_quitRes_update (o : EngineOracle) (q : Except String Unit)
    (content : List String) (command : String) (cursors : List Position) :
    LoopClient.execute { o with quitRes := q } content command cursors =
    LoopClient.execute o content command cursors := by
  unfold LoopClient.execute
  have hb : LoopClient.executeBody { o with quitRes := q } = LoopClient.executeBody o := by
    funext content command cursors
    unfold LoopClient.executeBody
    rw [@LoopClient.executeCore_congr o { o with quitRes := q }
      rfl rfl rfl rfl rfl rfl rfl rfl rfl rfl,
      @resolvePositions_congr o { o with quitRes := q } rfl]
  rw [hb]
  simp only [teardown_quit_irrel]

/-- If the engine path resolves and the core run succeeds, `execute`
returns the read-back lines with the soft-resolved marker positions. -/
theorem LoopClient.execute_of_core_ok {o : EngineOracle} {content : List String}
    {command : String} {cursors : List Position} {p : String} {lines : List String}
    {ids : List Nat} {t : Trace} (hfp : o.findPath = some p)
    (hcore : LoopClient.executeCore o content command cursors = (.ok (lines, ids), t)) :
    (LoopClient.execute o content command cursors).1 =
      .ok { lines := lines, cursorPositions := resolvePositions o ids } := by
  unfold LoopClient.execute
  rw [hfp]
  have hb : LoopClient.executeBody o content command cursors =
      (.ok { lines := lines, cursorPositions := resolvePositions o ids }, t) := by
    unfold LoopClient.executeBody
    rw [hcore]
  rw [hb]
  rfl

theorem GlobalClient.globalBody_trace (o : EngineOracle) (content : List String)
    (command : String) (cursors : List Position) :
    (GlobalClient.executeBody o content command cursors).2 =
    (GlobalClient.executeCore o content command cursors).2 := by
  unfold GlobalClient.executeBody
  rcases h : GlobalClient.executeCore o content command cursors with ⟨res, t⟩
  cases res with
  | error e => rfl
  | ok p => rcases p with ⟨lines, ids⟩; rfl

theorem GlobalClient.globalBody_ok {o : EngineOracle} {content : List String}
    {command : String} {cursors : List Position} {r : ExecuteResult} {t : Trace}
    (h : GlobalClient.executeBody o content command cursors = (.ok r, t)) :
    ∃ ids, GlobalClient.executeCore o content command cursors = (.ok (r.lines, ids), t) ∧
      r.cursorPositions = resolvePositions o ids := by
  unfold GlobalClient.executeBody at h
  split at h
  · simp at h
  · rename_i lines ids t2 heq
    simp only [Prod.mk.injEq, Except.ok.injEq] at h
    obtain ⟨hr, ht⟩ := h
    subst ht
    refine ⟨ids, ?_, ?_⟩
    · rw [← hr]
      exact heq
    · rw [← hr]

/-- With no cursors, the loop variant records no command run at all: the
per-cursor loop body never executes. -/
theorem LoopClient.executeCore_nil_commandRuns (o : EngineOracle)
    (content : List String) (command : String) :
    (LoopClient.executeCore o content command []).2.commandRuns = [] := by
  unfold LoopClient.executeCore step
  cases h1 : o.spawnRes
  · rfl
  cases h2 : o.attachRes
  · rfl
  cases h3 : o.bufferRes
  · rfl
  cases h4 : o.setLinesRes
  · rfl
  cases h5 : o.namespaceRes
  · rfl
  cases h6 : o.getLinesRes
  · rfl
  · rfl

/-- With no cursors, a successful run of the global variant records exactly
one command run: the raw command string, with nothing prepended. -/
theorem GlobalClient.executeCore_nil_ok {o : EngineOracle} {content : List String}
    {command : String} {lines : List String} {ids : List Nat} {t : Trace}
    (h : GlobalClient.executeCore o content command [] = (.ok (lines, ids), t)) :
    ids = [] ∧ t.commandRuns = [command] := by
  simp only [GlobalClient.executeCore, step, createMarks] at h
  split at h
  · simp at h
  split at h
  · simp at h
  split at h
  · simp at h
  split at h
  · simp at h
  split at h
  · simp at h
  split at h
  · simp at h
  · split at h
    · simp at h
    · simp only [Prod.mk.injEq, Except.ok.injEq] at h
      obtain ⟨⟨_, hids⟩, ht⟩ := h
      constructor
      · exact hids.symm
      · rw [← ht]
        simp [Trace.afterAttach, Trace.empty]

/-- An oracle on which every RPC call succeeds: the engine accepts every
command, the transformed buffer is `["a"]`, and every marker resolves to
`[0, 0]`. -/
def okOracle : EngineOracle :=
  { findPath := some "/usr/bin/nvim"
    spawnRes := .ok ()
    attachRes := .ok ()
    bufferRes := .ok ()
    setLinesRes := .ok ()
    namespaceRes := .ok 1
    setExtmarkRes := fun i => .ok (i + 1)
    getExtmarkRes := fun _ => .ok (0, 0)
    setCursorRes := fun _ => .ok ()
    runCommandRes := fun _ => .ok ()
    getLinesRes := .ok ["a"]
    resolveRes := fun _ => .ok [0, 0]
    quitRes := .ok () }

/-- The `okOracle` with `findNvim` returning no match. -/
def noNvimOracle : EngineOracle :=
  { okOracle with findPath := none }

/-- The `okOracle` where resolving mark id 1 throws an RPC error and every
other mark resolves to `[0, 0]`. -/
def resolveBadOracle : EngineOracle :=
  { okOracle with resolveRes := fun id => if id = 1 then .error "boom" else .ok [0, 0] }

theorem LoopClient.execute_trace_fields (o : EngineOracle) (content : List String)
    (command : String) (cursors : List Position) :
    (LoopClient.execute o content command cursors).2.killed =
      (LoopClient.execute o content command cursors).2.spawned ∧
    (LoopClient.execute o content command cursors).2.quitAttempted =
      (LoopClient.execute o content command cursors).2.attached := by
  unfold LoopClient.execute
  cases hfp : o.findPath
  · exact ⟨rfl, rfl⟩
  · dsimp only
    rcases hb : LoopClient.executeBody o content command cursors with ⟨res, t⟩
    dsimp only
    have htr := LoopClient.executeBody_trace o content command cursors
    rw [hb] at htr
    dsimp only at htr
    obtain ⟨s, a, e, c, hshape⟩ := LoopClient.executeCore_trace_shape o content command cursors
    rw [← htr] at hshape
    constructor
    · rw [teardown_killed, teardown_spawned, hshape]
      simp
    · rw [teardown_quitAttempted, teardown_attached, hshape]
      simp

/-! ## The claims -/

/-- C1 counterexample: in the per-cursor-loop variant
(`src/src/neovim/client.ts`), a successful `execute` with non-empty content
`["a"]`, command `"d"` and an empty cursor list runs the ex command ZERO
times — the per-cursor loop body never executes, so the number of engine
command runs is 0, not exactly 1 as claimed — while returning
`cursorPositions = []`. -/
theorem execute_empty_cursors_counterexample :
    (LoopClient.execute okOracle ["a"] "d" []).1 =
      .ok { lines := ["a"], cursorPositions := [] } ∧
    (LoopClient.execute okOracle ["a"] "d" []).2.commandRuns = [] ∧
    (LoopClient.execute okOracle ["a"] "d" []).2.commandRuns.length ≠ 1 :=
  ⟨rfl, rfl, by decide⟩

/-- C1 amended: for non-empty content and an empty cursor list, a
successful `execute` returns `cursorPositions = []` in both client
variants; the global variant (`src/unnamed/part_000`) runs the ex command
exactly once with no range prefix (the single recorded run is the raw
command string), while the per-cursor-loop variant
(`src/src/neovim/client.ts`) runs it zero times. -/
theorem execute_empty_cursors_amended (o : EngineOracle) (content : List String)
    (command : String) (hne : content ≠ []) :
    (∀ r, (LoopClient.execute o content command []).1 = .ok r →
      r.cursorPositions = [] ∧
      (LoopClient.execute o content command []).2.commandRuns = []) ∧
    (∀ r, (GlobalClient.execute o content command []).1 = .ok r →
      r.cursorPositions = [] ∧
      (GlobalClient.execute o content command []).2.commandRuns = [command]) := by
  constructor
  · intro r h
    constructor
    · unfold LoopClient.execute at h
      cases hfp : o.findPath
      · rw [hfp] at h
        simp at h
      · rw [hfp] at h
        dsimp only at h
        rcases hb : LoopClient.executeBody o content command [] with ⟨res, t⟩
        rw [hb] at h
        dsimp only at h
        cases res with
        | error be => cases be <;> simp [wrapBody] at h
        | ok r0 =>
          simp only [wrapBody, Except.ok.injEq] at h
          subst h
          obtain ⟨ids, hcore, hpos⟩ := LoopClient.executeBody_ok hb
          have hlen : ids.length = 0 := LoopClient.executeCore_ok_length hcore
          have hnil : ids = [] := List.length_eq_zero.mp hlen
          subst hnil
          rw [hpos]
          rfl
    · unfold LoopClient.execute
      cases hfp : o.findPath
      · rfl
      · dsimp only
        rcases hb : LoopClient.executeBody o content command [] with ⟨res, t⟩
        dsimp only
        rw [teardown_commandRuns]
        have htr := LoopClient.executeBody_trace o content command []
        rw [hb] at htr
        dsimp only at htr
        rw [htr]
        exact LoopClient.executeCore_nil_commandRuns o content command
  · intro r h
    unfold GlobalClient.execute at h
    cases hfp : o.findPath
    · rw [hfp] at h
      simp at h
    · rw [hfp] at h
      dsimp only at h
      rcases hb : GlobalClient.executeBody o content command [] with ⟨res, t⟩
      rw [hb] at h
      dsimp only at h
      cases res with
      | error be => cases be <;> simp [wrapBody] at h
      | ok r0 =>
        simp only [wrapBody, Except.ok.injEq] at h
        subst h
        obtain ⟨ids, hcore, hpos⟩ := GlobalClient.globalBody_ok hb
        obtain ⟨hids, hruns⟩ := GlobalClient.executeCore_nil_ok hcore
        subst hids
        constructor
        · rw [hpos]
          rfl
        · unfold GlobalClient.execute
          rw [hfp]
          dsimp only
          rw [hb]
          dsimp only
          rw [teardown_commandRuns]
          exact hruns

/-- Witness for `execute_empty_cursors_amended` at the all-ok oracle,
content `["a"]` and command `"d"`. -/
theorem execute_empty_cursors_amended_witness :
    (ExecuteResult.cursorPositions { lines := ["a"], cursorPositions := [] } = [] ∧
      (LoopClient.execute okOracle ["a"] "d" []).2.commandRuns = []) ∧
    (ExecuteResult.cursorPositions { lines := ["a"], cursorPositions := [] } = [] ∧
      (GlobalClient.execute okOracle ["a"] "d" []).2.commandRuns = ["d"]) :=
  ⟨(execute_empty_cursors_amended okOracle ["a"] "d" (by decide)).1
      { lines := ["a"], cursorPositions := [] } (by rfl),
   (execute_empty_cursors_amended okOracle ["a"] "d" (by decide)).2
      { lines := ["a"], cursorPositions := [] } (by rfl)⟩

/-- C2: every failure of `execute` is exactly one of the three error kinds
of `src/src/utils/errors.ts`: `NeovimNotFoundError` — raised before the
subprocess is spawned; `ExCommandError` — carrying the exact command text
attempted (the raw input command) and the diagnostic message the engine
reported for a failed command run; or `NeovimConnectionError` — wrapping
every other thrown error. The three kinds are pairwise distinct. -/
theorem execute_error_taxonomy (o : EngineOracle) (content : List String)
    (command : String) (cursors : List Position) (e : NeovimError)
    (h : (LoopClient.execute o content command cursors).1 = .error e) :
    ((e = .notFound ∧ (LoopClient.execute o content command cursors).2.spawned = false) ∨
     (∃ m, e = .exCommand command m ∧ ∃ j, o.runCommandRes j = .error m) ∨
     (∃ m, e = .connection m)) ∧
    (∀ c m d, NeovimError.notFound ≠ NeovimError.exCommand c m ∧
      NeovimError.notFound ≠ NeovimError.connection d ∧
      NeovimError.exCommand c m ≠ NeovimError.connection d) := by
  refine ⟨?_, fun c m d => ⟨by simp, by simp, by simp⟩⟩
  unfold LoopClient.execute at h ⊢
  cases hfp : o.findPath
  · rw [hfp] at h
    dsimp only at h
    simp only [Except.error.injEq] at h
    subst h
    left
    exact ⟨rfl, rfl⟩
  · rw [hfp] at h
    dsimp only at h
    rcases hb : LoopClient.executeBody o content command cursors with ⟨res, t⟩
    rw [hb] at h
    dsimp only at h
    cases res with
    | ok a => simp [wrapBody] at h
    | error be =>
      cases be with
      | raw m =>
        right; right
        simp only [wrapBody, Except.error.injEq] at h
        exact ⟨m, h.symm⟩
      | exCmd c2 m =>
        right; left
        simp only [wrapBody, Except.error.injEq] at h
        have hcore := LoopClient.executeBody_error hb
        obtain ⟨hc, hj⟩ := LoopClient.executeCore_error_exCmd hcore
        subst hc
        exact ⟨m, h.symm, hj⟩

/-- Witness for `execute_error_taxonomy`: the oracle on which `findNvim`
finds no engine, so `execute` fails with `NeovimNotFoundError` before
spawning. -/
theorem execute_error_taxonomy_witness :
    ((NeovimError.notFound = NeovimError.notFound ∧
        (LoopClient.execute noNvimOracle ["a"] "d" []).2.spawned = false) ∨
     (∃ m, NeovimError.notFound = NeovimError.exCommand "d" m ∧
        ∃ j, noNvimOracle.runCommandRes j = .error m) ∨
     (∃ m, NeovimError.notFound = NeovimError.connection m)) ∧
    (∀ c m d, NeovimError.notFound ≠ NeovimError.exCommand c m ∧
      NeovimError.notFound ≠ NeovimError.connection d ∧
      NeovimError.exCommand c m ≠ NeovimError.connection d) :=
  execute_error_taxonomy noNvimOracle ["a"] "d" [] .notFound (by rfl)

/-- C3: on every successful call of `execute`, `cursorPositions` has
exactly one entry per input cursor, in input order (it is the soft
resolution of the per-cursor mark ids, whose count equals the cursor
count); under the engine contract that resolving a marker returns either a
`[row, col]` pair or an empty array, an entry is `none` exactly when that
resolution threw an RPC error or returned the empty array; and changing
the resolution outcomes alone can never change success, the returned
lines, or the number of entries — one unresolvable marker aborts neither
the other entries nor the call. -/
theorem execute_cursorPositions_per_cursor (o : EngineOracle)
    (content : List String) (command : String) (cursors : List Position)
    (r : ExecuteResult)
    (h : (LoopClient.execute o content command cursors).1 = .ok r)
    (hapi : ∀ id res, o.resolveRes id = .ok res → res.length = 2 ∨ res = []) :
    r.cursorPositions.length = cursors.length ∧
    (∃ ids, ids.length = cursors.length ∧
      r.cursorPositions = resolvePositions o ids ∧
      ∀ id ∈ ids, (resolveOne o id = none ↔
        ((∃ m, o.resolveRes id = .error m) ∨ o.resolveRes id = .ok []))) ∧
    (∀ f, ∃ r2,
      (LoopClient.execute { o with resolveRes := f } content command cursors).1 = .ok r2 ∧
      r2.lines = r.lines ∧
      r2.cursorPositions.length = r.cursorPositions.length) := by
  unfold LoopClient.execute at h
  cases hfp : o.findPath
  · rw [hfp] at h
    simp at h
  · rw [hfp] at h
    dsimp only at h
    rcases hb : LoopClient.executeBody o content command cursors with ⟨res, t⟩
    rw [hb] at h
    dsimp only at h
    cases res with
    | error be => cases be <;> simp [wrapBody] at h
    | ok r0 =>
      simp only [wrapBody, Except.ok.injEq] at h
      subst h
      obtain ⟨ids, hcore, hpos⟩ := LoopClient.executeBody_ok hb
      have hlen : ids.length = cursors.length := LoopClient.executeCore_ok_length hcore
      have hlen2 : r0.cursorPositions.length = cursors.length := by
        rw [hpos]
        unfold resolvePositions
        rw [List.length_map]
        exact hlen
      refine ⟨hlen2, ⟨ids, hlen, hpos, ?_⟩, ?_⟩
      · intro id _
        cases hres : o.resolveRes id with
        | error m => simp [resolveOne, hres]
        | ok res2 =>
          rcases hapi id res2 hres with h2 | hnil
          · obtain ⟨x, y, rfl⟩ := List.length_eq_two.mp h2
            simp [resolveOne, hres]
          · subst hnil
            simp [resolveOne, hres]
      · intro f
        have hcore2 : LoopClient.executeCore { o with resolveRes := f } content command cursors =
            (.ok (r0.lines, ids), t) := by
          rw [LoopClient.executeCore_resolveRes_update]
          exact hcore
        rw [hfp] at hcore2
        refine ⟨_, LoopClient.execute_of_core_ok (by rfl) hcore2, rfl, ?_⟩
        rw [hpos]
        unfold resolvePositions
        rw [List.length_map, List.length_map]

/-- Witness for `execute_cursorPositions_per_cursor`: two cursors; the
first mark (id 1) fails to resolve with an RPC error and yields `none`,
the second (id 2) resolves to `[0, 0]`; the call still succeeds with two
entries. -/
theorem execute_cursorPositions_per_cursor_witness :
    (ExecuteResult.cursorPositions
        { lines := ["a"], cursorPositions := [none, some ⟨0, 0⟩] }).length =
      ([⟨0, 0⟩, ⟨0, 0⟩] : List Position).length ∧
    (∃ ids, ids.length = ([⟨0, 0⟩, ⟨0, 0⟩] : List Position).length ∧
      ExecuteResult.cursorPositions
          { lines := ["a"], cursorPositions := [none, some ⟨0, 0⟩] } =
        resolvePositions resolveBadOracle ids ∧
      ∀ id ∈ ids, (resolveOne resolveBadOracle id = none ↔
        ((∃ m, resolveBadOracle.resolveRes id = .error m) ∨
          resolveBadOracle.resolveRes id = .ok []))) ∧
    (∀ f, ∃ r2,
      (LoopClient.execute { resolveBadOracle with resolveRes := f }
          ["a"] "d" [⟨0, 0⟩, ⟨0, 0⟩]).1 = .ok r2 ∧
      r2.lines = ExecuteResult.lines
        { lines := ["a"], cursorPositions := [none, some ⟨0, 0⟩] } ∧
      r2.cursorPositions.length =
        (ExecuteResult.cursorPositions
          { lines := ["a"], cursorPositions := [none, some ⟨0, 0⟩] }).length) :=
  execute_cursorPositions_per_cursor resolveBadOracle ["a"] "d" [⟨0, 0⟩, ⟨0, 0⟩]
    { lines := ["a"], cursorPositions := [none, some ⟨0, 0⟩] } (by rfl)
    (by
      intro id res2 hr
      simp only [resolveBadOracle] at hr
      split at hr
      · simp at hr
      · simp only [Except.ok.injEq] at hr
        subst hr
        left
        rfl)

/-- C4: on every exit path of `execute` — normal return, command failure,
or any failure after the subprocess was spawned — the `finally` teardown
runs: the subprocess is killed exactly when it was spawned (no subprocess
outlives the call), the graceful quit is attempted exactly when the RPC
client was attached, and the entire outcome (result and trace) is
unchanged by whether the quit request succeeds or throws — quit errors are
swallowed. -/
theorem execute_teardown_every_path (o : EngineOracle) (content : List String)
    (command : String) (cursors : List Position) :
    (LoopClient.execute o content command cursors).2.killed =
      (LoopClient.execute o content command cursors).2.spawned ∧
    (LoopClient.execute o content command cursors).2.quitAttempted =
      (LoopClient.execute o content command cursors).2.attached ∧
    ∀ q, LoopClient.execute { o with quitRes := q } content command cursors =
      LoopClient.execute o content command cursors :=
  ⟨(LoopClient.execute_trace_fields o content command cursors).1,
   (LoopClient.execute_trace_fields o content command cursors).2,
   fun q => LoopClient.execute_quitRes_update o q content command cursors⟩

/-- C7: with empty content the source computes
`Math.min(pos.line, content.length - 1) = Math.min(0, -1) = -1` and
`Math.min(pos.col, ("" ).length) = 0`, so on a run of `execute` with
empty content and one cursor at (0, 0) the single `nvim_buf_set_extmark`
call receives line `-1` — a negative, invalid line index — and column `0`,
not the line `0` the specification requires. -/
theorem execute_empty_content_marker_line :
    (LoopClient.execute okOracle [] "d" [⟨0, 0⟩]).2.extmarkCalls = [(-1, 0, false)] ∧
    clampPos [] ⟨0, 0⟩ = (-1, 0) ∧
    clampPos [] ⟨0, 0⟩ ≠ (0, 0) := by
  refine ⟨rfl, by decide, by decide⟩

/-! ## The unified CursorInfo-based client (modelled from the spec)

`src/src/commands/runExCommand.ts` imports `CursorInfo` from
`../neovim/client` and calls `neovimClient.execute(content, command,
cursors)` with one optional selection per cursor, but the client variant
implementing that signature is absent from the source tree: the two
present variants take plain positions (plus, separately, a single
whole-call selection) and create only cursor extmarks, all with
`right_gravity: false`. The marker-creation step of the missing unified
client is therefore modelled from the specification (section 4.3 step 4). -/

/-- Marker gravity: low gravity stays behind text inserted exactly at the
marker; high gravity advances. -/
inductive Gravity where
  | low
  | high
deriving DecidableEq, Repr

/-- Which endpoint a marker-creation call is for. -/
inductive MarkerRole where
  | cursor
  | selStart
  | selEnd
deriving DecidableEq, Repr

/-- One marker-creation call: the clamped coordinates, the gravity passed,
and the endpoint the call is for. -/
structure MarkerCall where
  line : Int
  col : Int
  gravity : Gravity
  role : MarkerRole
deriving DecidableEq, Repr

/-- A line-granular selection range, `start ≤ end` inclusive. -/
structure SelRange where
  startLine : Int
  endLine : Int
deriving DecidableEq, Repr

/-- Structure `CursorInfo` as consumed by `src/src/commands/runExCommand.ts`: the
active caret position plus an optional line-granular selection. -/
structure CursorInfo where
  line : Int
  col : Int
  selection : Option SelRange
deriving DecidableEq, Repr

/-- Modelled from the spec: the marker-creation step of the unified
`NeovimClient.execute` that `src/src/commands/runExCommand.ts` calls but
that is missing from the source tree. Per spec section 4.3 step 4: create
a low-gravity cursor marker at the clamped anchor position; if the cursor
carries a selection, additionally create a low-gravity marker at the
clamped selection-start line at column 0 and a high-gravity marker at the
clamped selection-end line at its end-of-line column. -/
def markerCallsFor (content : List String) (c : CursorInfo) : List MarkerCall :=
  let a := clampPos content ⟨c.line, c.col⟩
  match c.selection with
  | none => [⟨a.1, a.2, .low, .cursor⟩]
  | some s =>
    let sl := min s.startLine ((content.length : Int) - 1)
    let el := min s.endLine ((content.length : Int) - 1)
    [⟨a.1, a.2, .low, .cursor⟩,
     ⟨sl, 0, .low, .selStart⟩,
     ⟨el, lineLenAt content el, .high, .selEnd⟩]

/-- Modelled from the spec: the marker-creation calls of the unified
client for a whole cursor list, in input order. -/
def createAllMarkers (content : List String) (cursors : List CursorInfo) : List MarkerCall :=
  cursors.flatMap (markerCallsFor content)

/-- C5 (spec-modelled): in the unified client, every marker-creation call
passes high gravity exactly when it creates a selection-end marker: cursor
markers and selection-start markers use low gravity, selection-end markers
use high gravity. -/
theorem createAllMarkers_gravity (content : List String) (cursors : List CursorInfo)
    (m : MarkerCall) (hm : m ∈ createAllMarkers content cursors) :
    m.gravity = Gravity.high ↔ m.role = MarkerRole.selEnd := by
  unfold createAllMarkers at hm
  rw [List.mem_flatMap] at hm
  obtain ⟨c, hc, hmc⟩ := hm
  unfold markerCallsFor at hmc
  rcases hsel : c.selection with _ | s <;> rw [hsel] at hmc <;> simp at hmc
  · subst hmc
    simp
  · rcases hmc with h | h | h <;> subst h <;> simp

/-- Witness for `createAllMarkers_gravity`: content `["ab"]`, one cursor
at (0, 0) with selection lines 0 to 0; the selection-end call is at line
0, column 2 (end of line), with high gravity. -/
theorem createAllMarkers_gravity_witness :
    (⟨0, 2, Gravity.high, MarkerRole.selEnd⟩ : MarkerCall).gravity = Gravity.high ↔
    (⟨0, 2, Gravity.high, MarkerRole.selEnd⟩ : MarkerCall).role = MarkerRole.selEnd :=
  createAllMarkers_gravity ["ab"] [⟨0, 0, some ⟨0, 0⟩⟩]
    ⟨0, 2, Gravity.high, MarkerRole.selEnd⟩ (by decide)

/-! ## The command entry point (`src/src/commands/runExCommand.ts`) -/

/-- How one invocation of `runExCommand` ends. -/
inductive RunExit where
  | noEditorWarning
  | alreadyInProgressWarning
  | noCommand
  | finished (errorShown : Option NeovimError)
deriving DecidableEq, Repr

/-- The environment one invocation of `runExCommand` runs in: whether an
active editor exists, what the input dialog returns (`none` models a
dismissed dialog, the empty string is also falsy), and how the engine call
would end if made. -/
structure RunEnv where
  hasEditor : Bool
  commandInput : Option String
  executeOutcome : Except NeovimError ExecuteResult

/-- Function `runExCommand` of `src/src/commands/runExCommand.ts` (lines 13-116):
check for an active editor, reject while `isExecuting` is set, show the
input dialog, return on an empty command, then set the flag, run the
engine call inside try/catch, and clear the flag in the `finally` block.
Returns the exit taken, the final value of the `isExecuting` flag and
whether the engine call was made. -/
def runExCommand (env : RunEnv) (isExecuting : Bool) : RunExit × Bool × Bool :=
  if env.hasEditor = false then (.noEditorWarning, isExecuting, false)
  else if isExecuting then (.alreadyInProgressWarning, isExecuting, false)
  else
    match env.commandInput with
    | none => (.noCommand, isExecuting, false)
    | some cmd =>
      if cmd = "" then (.noCommand, isExecuting, false)
      else
        match env.executeOutcome with
        | .ok _ => (.finished none, false, true)
        | .error e => (.finished (some e), false, true)

/-- C8 counterexample: with the flag set but no active editor, the
invocation exits with the no-active-editor warning, not the
already-in-progress notice — the editor check at lines 17-21 runs before
the guard check at lines 23-26. (It still performs no engine call, and
the flag — owned by the in-flight invocation — is left set, not cleared.) -/
theorem runExCommand_no_editor_counterexample :
    runExCommand ⟨false, some "d", .ok { lines := [], cursorPositions := [] }⟩ true =
      (.noEditorWarning, true, false) ∧
    RunExit.noEditorWarning ≠ RunExit.alreadyInProgressWarning := by
  exact ⟨rfl, by simp⟩

/-- C8 amended: when an active editor exists and the flag is set, the
invocation rejects immediately with the already-in-progress notice,
performs no engine call, and leaves the flag unchanged; an invocation that
makes the engine call always resets the flag to false on exit (success or
error); an invocation that never reaches the engine call leaves the flag
exactly as it found it. -/
theorem runExCommand_guard_amended (env : RunEnv) (flag : Bool) :
    (env.hasEditor = true → flag = true →
      runExCommand env flag = (.alreadyInProgressWarning, flag, false)) ∧
    ((runExCommand env flag).2.2 = true → (runExCommand env flag).2.1 = false) ∧
    ((runExCommand env flag).2.2 = false → (runExCommand env flag).2.1 = flag) := by
  refine ⟨?_, ?_, ?_⟩
  · intro he hf
    subst hf
    simp [runExCommand, he]
  · unfold runExCommand
    split
    · intro h
      simp at h
    · split
      · intro h
        simp at h
      · split
        · intro h
          simp at h
        · split
          · intro h
            simp at h
          · split
            · intro _
              rfl
            · intro _
              rfl
  · unfold runExCommand
    split
    · intro _
      rfl
    · split
      · intro _
        rfl
      · split
        · intro _
          rfl
        · split
          · intro _
            rfl
          · split
            · intro h
              simp at h
            · intro h
              simp at h

/-- Witness for `runExCommand_guard_amended`: editor present, flag set —
the invocation rejects with the notice and leaves the flag set. -/
theorem runExCommand_guard_amended_witness :
    runExCommand ⟨true, some "d", .ok { lines := [], cursorPositions := [] }⟩ true =
      (.alreadyInProgressWarning, true, false) :=
  (runExCommand_guard_amended
    ⟨true, some "d", .ok { lines := [], cursorPositions := [] }⟩ true).1 rfl rfl

/-! ## Result reconciliation (`src/src/commands/runExCommand.ts` lines
78-89) -/

/-- A VS Code selection, anchor and active each as line/column. -/
structure Selection where
  anchorLine : Int
  anchorCol : Int
  activeLine : Int
  activeCol : Int
deriving DecidableEq, Repr

/-- One returned position turned into a collapsed selection, clamped to
the new document (lines 80-85): line to `lineCount - 1`, column to the
length of the clamped line. -/
def toSelection (doc : List String) (p : Position) : Selection :=
  let line := min p.line ((doc.length : Int) - 1)
  let col := min p.col (lineLenAt doc line)
  ⟨line, col, line, col⟩

/-- The `filter`/`map` of lines 78-85: drop `null` slots, clamp the rest. -/
def computeNewSelections (doc : List String) (positions : List (Option Position)) :
    List Selection :=
  (positions.filterMap id).map (toSelection doc)

/-- Lines 87-89: assign the new selections only when at least one slot
resolved; otherwise leave the existing selections untouched. -/
def applyNewSelections (doc : List String) (positions : List (Option Position))
    (old : List Selection) : List Selection :=
  if (computeNewSelections doc positions).length > 0 then
    computeNewSelections doc positions
  else old

/-- C9: when every entry of `cursorPositions` is absent, the existing
selection state is returned unchanged (no assignment); when some entries
resolve, the absent slots are dropped — one selection per resolved entry —
and every produced selection is the clamp of a resolved position: line to
`min(line, lineCount - 1)`, column to `min(col, length of that line)`. -/
theorem runExCommand_reconciliation (doc : List String)
    (positions : List (Option Position)) (old : List Selection) :
    ((∀ x ∈ positions, x = none) → applyNewSelections doc positions old = old) ∧
    ((∃ p, some p ∈ positions) →
      (applyNewSelections doc positions old).length = (positions.filterMap id).length ∧
      ∀ s ∈ applyNewSelections doc positions old, ∃ p, some p ∈ positions ∧
        s = toSelection doc p) ∧
    (∀ p, (toSelection doc p).activeLine = min p.line ((doc.length : Int) - 1) ∧
      (toSelection doc p).activeCol =
        min p.col (lineLenAt doc (min p.line ((doc.length : Int) - 1)))) := by
  refine ⟨?_, ?_, ?_⟩
  · intro hall
    have hnil : positions.filterMap id = [] := by
      rw [List.filterMap_eq_nil_iff]
      intro a ha
      rw [hall a ha]
      rfl
    unfold applyNewSelections computeNewSelections
    rw [hnil]
    simp
  · rintro ⟨p, hp⟩
    have hmem : p ∈ positions.filterMap id := by
      rw [List.mem_filterMap]
      exact ⟨some p, hp, rfl⟩
    have hne : positions.filterMap id ≠ [] := by
      intro hnil
      rw [hnil] at hmem
      simp at hmem
    have hpos : (computeNewSelections doc positions).length > 0 := by
      unfold computeNewSelections
      rw [List.length_map]
      exact List.length_pos.mpr hne
    constructor
    · unfold applyNewSelections
      rw [if_pos hpos]
      unfold computeNewSelections
      rw [List.length_map]
    · intro s hs
      unfold applyNewSelections at hs
      rw [if_pos hpos] at hs
      unfold computeNewSelections at hs
      rw [List.mem_map] at hs
      obtain ⟨q, hq, hsq⟩ := hs
      rw [List.mem_filterMap] at hq
      obtain ⟨x, hx, hxq⟩ := hq
      cases x with
      | none => simp at hxq
      | some q2 =>
        simp only [Option.some.injEq, id] at hxq
        subst hxq
        exact ⟨q2, hx, hsq.symm⟩
  · intro p
    unfold toSelection
    exact ⟨rfl, rfl⟩

/-- Witness for `runExCommand_reconciliation`: a single absent slot leaves
the existing selection untouched. -/
theorem runExCommand_reconciliation_witness :
    applyNewSelections ["ab"] [none] [⟨0, 0, 0, 0⟩] = [⟨0, 0, 0, 0⟩] :=
  (runExCommand_reconciliation ["ab"] [none] [⟨0, 0, 0, 0⟩]).1 (by simp)
